import Mathlib

/-
Verification of the DFS downloads manager and its helpers.

This file gives a shallow embedding of the decision logic of
src/utils/manage_downloads.py (the DownloadsManager class: source
classification, file organization and manifest creation) and of
src/utils/scraper_common.py (get_current_nfl_week), and proves the
specified properties about the embedded definitions.

Modelling conventions:
- File contents are modelled as strings of bytes; a filesystem is an
  association list from paths to file data (content plus mtime).
  shutil.copy2 is modelled as read-then-write, preserving mtime.
- Paths are structured as a directory tag plus a filename.  The system
  Downloads staging directory and the per-source project directories are
  distinct directories, as they are for the real constants in the code.
- Python str.lower / str.upper are modelled character-wise (all the
  patterns involved are ASCII).
- The wall clock is injected: the per-file timestamp string that
  datetime.now().strftime produces in move_and_organize_files is a
  parameter (one string per processed file), and the current date in
  get_current_nfl_week is an integer day number in the convention of
  Python date.toordinal (day 1 = 0001-01-01, a Monday).
- The try/except blocks around filesystem operations are modelled by a
  failure oracle saying which operation (if any) raises; a raised
  operation leaves the remaining operations of that file unexecuted, and
  the per-file loop continues, exactly like the caught exception in the
  source.
-/

namespace DFS

/-! ## String helpers (Python substring and case operations) -/

/-- listLeads pat s is true when pat is an initial run of s. -/
def listLeads : List Char → List Char → Bool
  | [], _ => true
  | _ :: _, [] => false
  | a :: as, b :: bs => a == b && listLeads as bs

/-- listHasSub pat s is true when pat occurs contiguously inside s;
this models the Python expression pat in s on strings. -/
def listHasSub (pat : List Char) : List Char → Bool
  | [] => pat.isEmpty
  | c :: rest => listLeads pat (c :: rest) || listHasSub pat rest

/-- containsStr hay pat models the Python membership test pat in hay. -/
def containsStr (hay pat : String) : Bool :=
  listHasSub pat.data hay.data

/-- strEndsWith s suf is true when suf is a final run of s. -/
def strEndsWith (s suf : String) : Bool :=
  listLeads suf.data.reverse s.data.reverse

/-- Models Python str.lower (character-wise ASCII lowering). -/
def strLower (s : String) : String :=
  ⟨s.data.map Char.toLower⟩

/-- Models Python str.upper (character-wise ASCII raising). -/
def strUpper (s : String) : String :=
  ⟨s.data.map Char.toUpper⟩

/-! ## Source classifier, from src/utils/manage_downloads.py

The classifier works on the source-identifier strings used by the code:
"sos", "projections", "draftkings", "nfl_odds" and "unknown".  The spec
names the same categories strength_of_schedule, projections, salaries,
odds and unknown, in that correspondence. -/

/-- DownloadsManager._check_content_patterns (lines 90-123).  The
argument is the outcome of reading the first CONTENT_SAMPLE_SIZE
characters of the file: none when the read raised (the except branch of
the source returns None), some raw when it returned the text raw.  The
source lowercases the text it read and tests each pattern group in
order. -/
def check_content_patterns (readResult : Option String) : Option String :=
  match readResult with
  | none => none
  | some raw =>
    let content := strLower raw
    if containsStr content "strength of schedule"
        || (containsStr content "opp avg" && containsStr content "fpa") then
      some "sos"
    else if ["projpts", "projown", "fantasy", "footballers"].any
        (fun pattern => containsStr content pattern) then
      some "projections"
    else if ["draftkings", "salary", "roster position"].any
        (fun pattern => containsStr content pattern) then
      some "draftkings"
    else if (["spread", "moneyline"].any (fun pattern => containsStr content pattern))
        || (containsStr content "total"
            && ["odds", "line", "bet"].any (fun p => containsStr content p)) then
      some "nfl_odds"
    else
      none

/-- DownloadsManager._check_filename_patterns (lines 125-146). -/
def check_filename_patterns (filename : String) : String :=
  let filename_lower := strLower filename
  if containsStr filename_lower "strength of schedule"
      && containsStr filename_lower "fantasy" then
    "sos"
  else if ["projection", "fantasy", "footballers"].any
      (fun pattern => containsStr filename_lower pattern) then
    "projections"
  else if ["draftkings", "dk", "salaries"].any
      (fun pattern => containsStr filename_lower pattern) then
    "draftkings"
  else if ["odds", "lines", "betting"].any
      (fun pattern => containsStr filename_lower pattern) then
    "nfl_odds"
  else
    "unknown"

/-- Modelled from the words of the specification for comparison (spec
4.2 rule 5 claims the filename fallback reuses "the same category
keyword sets" as the content rules): filename matching with the content
keyword sets.  This definition exists only to be compared with
check_filename_patterns, which is the translation of the source. -/
def check_filename_patterns_sameSets (filename : String) : String :=
  let l := strLower filename
  if containsStr l "strength of schedule"
      || (containsStr l "opp avg" && containsStr l "fpa") then
    "sos"
  else if ["projpts", "projown", "fantasy", "footballers"].any
      (fun pattern => containsStr l pattern) then
    "projections"
  else if ["draftkings", "salary", "roster position"].any
      (fun pattern => containsStr l pattern) then
    "draftkings"
  else if (["spread", "moneyline"].any (fun pattern => containsStr l pattern))
      || (containsStr l "total" && ["odds", "line", "bet"].any (fun p => containsStr l p)) then
    "nfl_odds"
  else
    "unknown"

/-- DownloadsManager._identify_source (lines 148-167): content analysis
first, filename fallback second.  The readResult argument stands for
the attempted read of the file content, as in check_content_patterns. -/
def identify_source (filename : String) (readResult : Option String) : String :=
  match check_content_patterns readResult with
  | some content_source => content_source
  | none => check_filename_patterns filename

/-- DownloadsManager._extract_sos_position (lines 169-193). -/
def extract_sos_position (filename : String) : Option String :=
  let filename_upper := strUpper filename
  if containsStr filename_upper "SOS_QB_" || containsStr filename_upper "_QB_" then
    some "QB"
  else if containsStr filename_upper "SOS_RB_" || containsStr filename_upper "_RB_" then
    some "RB"
  else if containsStr filename_upper "SOS_WR_" || containsStr filename_upper "_WR_" then
    some "WR"
  else if containsStr filename_upper "SOS_TE_" || containsStr filename_upper "_TE_" then
    some "TE"
  else if containsStr filename_upper "SOS_D/ST_" || containsStr filename_upper "_DST_"
      || containsStr filename_upper "D%2FST" then
    some "DST"
  else
    none

/-! ## Filesystem model -/

/-- Directory tag: the system Downloads staging folder, or the
per-source project folder downloads/<s> created for source key s. -/
inductive Dir where
  | sysDownloads : Dir
  | category : String → Dir
deriving DecidableEq, Repr

/-- A path is a directory tag plus a filename within it. -/
structure Path where
  dir : Dir
  name : String
deriving DecidableEq, Repr

/-- Stat data of a file: its bytes and its modification time.
shutil.copy2 preserves the modification time, so copies carry it. -/
structure FileData where
  content : String
  mtime : Int
deriving DecidableEq, Repr

/-- A filesystem: an association list from paths to file data, with the
earliest entry for a path the live one. -/
abbrev FS := List (Path × FileData)

def fsLookup : FS → Path → Option FileData
  | [], _ => none
  | (q, d) :: rest, p => if p = q then some d else fsLookup rest p

def fsErase : FS → Path → FS
  | [], _ => []
  | (q, d) :: rest, p => if q = p then fsErase rest p else (q, d) :: fsErase rest p

/-- Writing replaces any previous entry at the path. -/
def fsWrite (fs : FS) (p : Path) (d : FileData) : FS :=
  (p, d) :: fsErase fs p

/-- shutil.copy2: read the source, write its data (content and mtime) to
the destination.  Fails (raises) when the source does not exist. -/
def fsCopy (fs : FS) (src dst : Path) : Option FS :=
  match fsLookup fs src with
  | none => none
  | some d => some (fsWrite fs dst d)

/-! ## Downloads organizer, from src/utils/manage_downloads.py -/

/-- One element of the files_to_move list handed to
move_and_organize_files: the dictionary built by find_recent_csv_files
(path, name, size, modified, source). -/
structure FileInfo where
  path : Path
  name : String
  size : Nat
  modified : Int
  source : String
deriving DecidableEq, Repr

/-- One element of the moved_files result list (lines 253-259). -/
structure MovedFile where
  source : String
  original : Path
  destination : Path
  latest : Path
  size : Nat
deriving DecidableEq, Repr

/-- The keys of the self.sources dictionary (lines 43-48), in insertion
order. -/
def sourceKeys : List String :=
  ["projections", "draftkings", "nfl_odds", "sos"]

/-- Models source.replace with a one-character pattern, as used on the
source keys (underscore to hyphen). -/
def slugOf (s : String) : String :=
  ⟨s.data.map (fun c => if c = '_' then '-' else c)⟩

/-- The base_name computed at lines 224-232: position-scoped for sos
files whose filename carries a recognized position, the hyphenated
source key otherwise. -/
def baseNameFor (fi : FileInfo) : String :=
  if fi.source = "sos" then
    match extract_sos_position fi.name with
    | some position => "sos-" ++ strLower position
    | none => "sos"
  else slugOf fi.source

/-- The timestamped destination path (lines 234-236); t is the string
datetime.now().strftime produced for this file. -/
def destPathOf (fi : FileInfo) (t : String) : Path :=
  ⟨Dir.category fi.source, baseNameFor fi ++ "_" ++ t ++ ".csv"⟩

/-- The per-key latest path (line 239). -/
def latestPathOf (fi : FileInfo) : Path :=
  ⟨Dir.category fi.source, baseNameFor fi ++ "_latest.csv"⟩

/-- The fallible filesystem operations inside the try block of
move_and_organize_files (lines 241-251), in execution order. -/
inductive FsOp where
  | copyDest : FsOp
  | unlinkLatest : FsOp
  | copyLatest : FsOp
  | unlinkOrig : FsOp
deriving DecidableEq, Repr

/-- Processing of a single staged file by the loop body of
move_and_organize_files (lines 209-264).  failOp says which operation,
if any, raises; the first raising operation aborts the rest of the body
(the exception is caught at line 263) leaving earlier mutations in
place.  Returns the updated filesystem and the moved_files record, if
the file was fully relocated. -/
def processOne (failOp : FsOp → Bool) (t : String) (fs : FS) (fi : FileInfo) :
    FS × Option MovedFile :=
  if fi.source = "unknown" then (fs, none)
  else if ¬ (sourceKeys.contains fi.source = true) then (fs, none)
  else
    let destPath := destPathOf fi t
    let latestPath := latestPathOf fi
    if failOp FsOp.copyDest then (fs, none)
    else
      match fsCopy fs fi.path destPath with
      | none => (fs, none)
      | some fs1 =>
        if (fsLookup fs1 latestPath).isSome && failOp FsOp.unlinkLatest then (fs1, none)
        else
          let fs2 := if (fsLookup fs1 latestPath).isSome then fsErase fs1 latestPath else fs1
          if failOp FsOp.copyLatest then (fs2, none)
          else
            match fsCopy fs2 destPath latestPath with
            | none => (fs2, none)
            | some fs3 =>
              if failOp FsOp.unlinkOrig then (fs3, none)
              else
                (fsErase fs3 fi.path,
                 some { source := fi.source, original := fi.path,
                        destination := destPath, latest := latestPath,
                        size := fi.size })

/-- The loop of move_and_organize_files, with the step index threaded
through so that the clock and the failure oracle can be per-file. -/
def organizeGo (failOp : Nat → FsOp → Bool) (ts : Nat → String) :
    Nat → FS → List FileInfo → FS × List MovedFile
  | _, fs, [] => (fs, [])
  | i, fs, fi :: rest =>
    let r1 := processOne (failOp i) (ts i) fs fi
    let r2 := organizeGo failOp ts (i + 1) r1.1 rest
    (r2.1, match r1.2 with
           | some mv => mv :: r2.2
           | none => r2.2)

/-- DownloadsManager.move_and_organize_files (lines 195-266).  ts i is
the timestamp string sampled while processing the i-th file, failOp i
the failure oracle for its filesystem operations. -/
def move_and_organize_files (failOp : Nat → FsOp → Bool) (ts : Nat → String)
    (fs : FS) (files_to_move : List FileInfo) : FS × List MovedFile :=
  organizeGo failOp ts 0 fs files_to_move

/-- The run in which no filesystem operation raises. -/
def noFail : FsOp → Bool := fun _ => false

/-- The failure oracle of a run in which no operation raises. -/
def noFailures : Nat → FsOp → Bool := fun _ _ => false

/-- The filesystem state after the first k files of a run have been
processed. -/
def organizeStateAt (failOp : Nat → FsOp → Bool) (ts : Nat → String)
    (fs : FS) (files : List FileInfo) (k : Nat) : FS :=
  (organizeGo failOp ts 0 fs (files.take k)).1

/-! ## Upload manifest, from src/utils/manage_downloads.py -/

/-- One element of the manifest files list (lines 289-295). -/
structure ManifestEntry where
  source : String
  path : Path
  size : Nat
  modified : Int
  ready_for_upload : Bool
deriving DecidableEq, Repr

/-- The manifest record (lines 280-283): generation timestamp plus the
files list. -/
structure Manifest where
  timestamp : String
  files : List ManifestEntry
deriving DecidableEq, Repr

/-- The latest-file path that create_upload_manifest inspects for a
source key (line 287). -/
def manifestLatestPath (s : String) : Path :=
  ⟨Dir.category s, slugOf s ++ "_latest.csv"⟩

/-- The files list of the manifest: one entry per source key whose
latest file exists, with its path, size (byte length of the content),
modification time and the always-true ready flag. -/
def manifestFiles (fs : FS) (keys : List String) : List ManifestEntry :=
  keys.filterMap fun s =>
    match fsLookup fs (manifestLatestPath s) with
    | some d =>
      some { source := s, path := manifestLatestPath s,
             size := d.content.length, modified := d.mtime,
             ready_for_upload := true }
    | none => none

/-- DownloadsManager.create_upload_manifest (lines 268-301).  now is the
injected datetime.now().isoformat() string.  The moved_files argument is
accepted and ignored, exactly as in the source, whose body never reads
it: the files list is rebuilt from the on-disk latest files. -/
def create_upload_manifest (now : String) (moved_files : List MovedFile)
    (fs : FS) : Manifest :=
  let _ := moved_files
  { timestamp := now, files := manifestFiles fs sourceKeys }

/-! ## NFL week inference, from src/utils/scraper_common.py

Dates are integer day numbers in the Python date.toordinal convention:
day 1 is 0001-01-01, a Monday of the proleptic Gregorian calendar, so
Python datetime.weekday() of day d is (d - 1) mod 7. -/

def isLeapYear (y : Nat) : Bool :=
  y % 4 == 0 && (y % 100 != 0 || y % 400 == 0)

def daysInMonth (y m : Nat) : Nat :=
  if m = 2 then (if isLeapYear y then 29 else 28)
  else if m = 4 || m = 6 || m = 9 || m = 11 then 30
  else 31

def daysBeforeMonth (y : Nat) : Nat → Nat
  | 0 => 0
  | m + 1 => if m = 0 then 0 else daysBeforeMonth y m + daysInMonth y m

/-- The toordinal day number of year y, month m, day d. -/
def toOrdinal (y m d : Nat) : Nat :=
  365 * (y - 1) + (y - 1) / 4 - (y - 1) / 100 + (y - 1) / 400
    + daysBeforeMonth y m + d

/-- Python datetime.weekday(): Monday is 0, Sunday is 6. -/
def weekdayOf (d : Int) : Int :=
  (d - 1).emod 7

/-- NFL_SEASON_START_DATE = datetime(2025, 9, 5) (scraper_common.py
line 22), as a day number. -/
def NFL_SEASON_START_DATE : Int :=
  (toOrdinal 2025 9 5 : Nat)

/-- NFL_WEEKS_IN_SEASON (line 23). -/
def NFL_WEEKS_IN_SEASON : Int := 18

/-- first_sunday before the Sunday-start adjustment (line 74). -/
def first_sunday_init : Int :=
  NFL_SEASON_START_DATE + (6 - weekdayOf NFL_SEASON_START_DATE).emod 7

/-- first_sunday after the adjustment of lines 75-76. -/
def first_sunday : Int :=
  if first_sunday_init = NFL_SEASON_START_DATE then NFL_SEASON_START_DATE + 7
  else first_sunday_init

/-- week1_monday (line 78): the Monday before first_sunday. -/
def week1_monday : Int :=
  first_sunday - 6

/-- get_current_nfl_week (lines 46-90) with the current date injected as
the now argument.  Python floor division // is Int.fdiv. -/
def get_current_nfl_week (now : Int) : Int :=
  if now < NFL_SEASON_START_DATE then 1
  else
    let days_since_week1_monday := now - week1_monday
    let current_week := days_since_week1_monday.fdiv 7 + 1
    if current_week > NFL_WEEKS_IN_SEASON then NFL_WEEKS_IN_SEASON
    else current_week

/-! ## Concrete fixtures used by witnesses and counterexamples -/

/-- A staged projections file a.csv. -/
def stagedA : FileInfo :=
  { path := ⟨Dir.sysDownloads, "a.csv"⟩, name := "a.csv", size := 1,
    modified := 0, source := "projections" }

/-- A second staged projections file b.csv. -/
def stagedB : FileInfo :=
  { path := ⟨Dir.sysDownloads, "b.csv"⟩, name := "b.csv", size := 1,
    modified := 1, source := "projections" }

/-- A staged file classified unknown. -/
def stagedU : FileInfo :=
  { path := ⟨Dir.sysDownloads, "u.csv"⟩, name := "u.csv", size := 1,
    modified := 2, source := "unknown" }

/-- A staged strength-of-schedule file with a QB position marker. -/
def stagedS : FileInfo :=
  { path := ⟨Dir.sysDownloads, "SOS_QB_Rankings.csv"⟩, name := "SOS_QB_Rankings.csv",
    size := 1, modified := 3, source := "sos" }

/-- Staging state holding a.csv (bytes A) and b.csv (bytes B). -/
def fsAB : FS :=
  [(stagedA.path, ⟨"A", 0⟩), (stagedB.path, ⟨"B", 1⟩)]

/-- Staging state holding a.csv and the unknown file u.csv. -/
def fsAU : FS :=
  [(stagedA.path, ⟨"A", 0⟩), (stagedU.path, ⟨"U", 2⟩)]

/-- Staging state holding the strength-of-schedule file. -/
def fsS : FS :=
  [(stagedS.path, ⟨"S", 3⟩)]

/-- A project state holding only the bare sos latest file. -/
def fsSosLatest : FS :=
  [(⟨Dir.category "sos", "sos_latest.csv"⟩, ⟨"X", 9⟩)]

/-- A clock stuck within one minute: both files get the same timestamp. -/
def tsSame : Nat → String := fun _ => "20250901_1200"

/-- A clock whose minute advances between the two files. -/
def tsDistinct : Nat → String :=
  fun k => if k = 0 then "20250901_1200" else "20250901_1201"

/-- A failure oracle under which every copy to a latest file raises. -/
def failCopyLatest : Nat → FsOp → Bool := fun _ op => op == FsOp.copyLatest

/-! ## Basic lemmas about the filesystem model -/

theorem fsLookup_erase (fs : FS) (p q : Path) :
    fsLookup (fsErase fs p) q = if q = p then none else fsLookup fs q := by
  induction fs with
  | nil =>
    simp only [fsErase, fsLookup]
    split <;> rfl
  | cons e rest ih =>
    obtain ⟨r, d⟩ := e
    simp only [fsErase]
    by_cases hrp : r = p
    · subst hrp
      rw [if_pos rfl, ih]
      by_cases hq : q = r <;> simp [fsLookup, hq]
    · rw [if_neg hrp]
      simp only [fsLookup]
      by_cases hq : q = r
      · subst hq
        rw [if_pos rfl, if_neg hrp]
        simp [fsLookup]
      · rw [if_neg hq, ih]
        by_cases hqp : q = p <;> simp [fsLookup, hq, hqp]

theorem fsLookup_write (fs : FS) (p : Path) (d : FileData) (q : Path) :
    fsLookup (fsWrite fs p d) q = if q = p then some d else fsLookup fs q := by
  simp only [fsWrite, fsLookup, fsLookup_erase]
  by_cases h : q = p <;> simp [h]

theorem fsLookup_mem {fs : FS} {p : Path} {d : FileData}
    (h : fsLookup fs p = some d) : (p, d) ∈ fs := by
  induction fs with
  | nil => simp [fsLookup] at h
  | cons e rest ih =>
    obtain ⟨r, d0⟩ := e
    simp only [fsLookup] at h
    by_cases hq : p = r
    · rw [if_pos hq] at h
      subst hq
      injection h with h
      subst h
      exact List.mem_cons_self _ _
    · rw [if_neg hq] at h
      exact List.mem_cons_of_mem _ (ih h)

/-! ## Basic lemmas about the string helpers -/

theorem listLeads_self_append (a b : List Char) : listLeads a (a ++ b) = true := by
  induction a with
  | nil => rfl
  | cons c cs ih => simp [listLeads, ih]

theorem strEndsWith_append (x suf : String) : strEndsWith (x ++ suf) suf = true := by
  unfold strEndsWith
  rw [String.data_append, List.reverse_append, listLeads_self_append]

theorem append_mid_inj {x y z w : String} (h : x ++ y ++ z = x ++ w ++ z) : y = w := by
  have hd : x.data ++ y.data ++ z.data = x.data ++ w.data ++ z.data := by
    have := congrArg String.data h
    simpa using this
  have h1 : x.data ++ y.data = x.data ++ w.data := List.append_cancel_right hd
  have h2 : y.data = w.data := List.append_cancel_left h1
  exact String.ext h2

/-! ## Claim C2: content rules in fixed priority order -/

/-- C2: the content rules are evaluated in a fixed priority order with
first match winning: strength of schedule (code name sos) first, then
projections, then salaries (code name draftkings), then odds (code name
nfl_odds), each guarded by the failure of every earlier rule.  In
particular a content matching the first rule is classified sos even
when it also contains fantasy, since the projections rule is never
consulted. -/
theorem c2_content_rule_priority (raw : String) :
    ((containsStr (strLower raw) "strength of schedule"
        || (containsStr (strLower raw) "opp avg" && containsStr (strLower raw) "fpa")) = true →
      check_content_patterns (some raw) = some "sos")
    ∧ ((containsStr (strLower raw) "strength of schedule"
          || (containsStr (strLower raw) "opp avg" && containsStr (strLower raw) "fpa")) = false →
        (["projpts", "projown", "fantasy", "footballers"].any
            (fun pattern => containsStr (strLower raw) pattern)) = true →
        check_content_patterns (some raw) = some "projections")
    ∧ ((containsStr (strLower raw) "strength of schedule"
          || (containsStr (strLower raw) "opp avg" && containsStr (strLower raw) "fpa")) = false →
        (["projpts", "projown", "fantasy", "footballers"].any
            (fun pattern => containsStr (strLower raw) pattern)) = false →
        (["draftkings", "salary", "roster position"].any
            (fun pattern => containsStr (strLower raw) pattern)) = true →
        check_content_patterns (some raw) = some "draftkings")
    ∧ ((containsStr (strLower raw) "strength of schedule"
          || (containsStr (strLower raw) "opp avg" && containsStr (strLower raw) "fpa")) = false →
        (["projpts", "projown", "fantasy", "footballers"].any
            (fun pattern => containsStr (strLower raw) pattern)) = false →
        (["draftkings", "salary", "roster position"].any
            (fun pattern => containsStr (strLower raw) pattern)) = false →
        ((["spread", "moneyline"].any (fun pattern => containsStr (strLower raw) pattern))
            || (containsStr (strLower raw) "total"
                && ["odds", "line", "bet"].any (fun p => containsStr (strLower raw) p))) = true →
        check_content_patterns (some raw) = some "nfl_odds") := by
  refine ⟨?_, ?_, ?_, ?_⟩ <;> intros <;> simp_all [check_content_patterns]

/-- Witness for C2: a content that matches the strength-of-schedule
rule and also mentions fantasy is classified sos, and an odds content
matching no earlier rule is classified nfl_odds. -/
theorem c2_content_rule_priority_witness :
    check_content_patterns (some "Strength Of Schedule Opp Avg FPA for fantasy") = some "sos"
    ∧ containsStr (strLower "Strength Of Schedule Opp Avg FPA for fantasy") "fantasy" = true
    ∧ check_content_patterns (some "Team,Spread,Moneyline") = some "nfl_odds" :=
  ⟨(c2_content_rule_priority "Strength Of Schedule Opp Avg FPA for fantasy").1 (by decide),
   by decide,
   (c2_content_rule_priority "Team,Spread,Moneyline").2.2.2
     (by decide) (by decide) (by decide) (by decide)⟩

/-! ## Claim C3: filename fallback keyword sets -/

/-- C3 counterexample: the claim says the filename fallback uses the
same category keyword sets as the content rules.  The filename
projpts.csv contains the content keyword projpts, so under the claimed
rule its fallback classification would be projections
(check_filename_patterns_sameSets, built from the words of the spec,
returns projections), but the code returns unknown: the filename step
uses its own keyword sets. -/
theorem c3_filename_sameSets_counterexample :
    identify_source "projpts.csv" none = "unknown"
    ∧ check_filename_patterns "projpts.csv" = "unknown"
    ∧ check_filename_patterns_sameSets "projpts.csv" = "projections"
    ∧ containsStr (strLower "projpts.csv") "projpts" = true := by
  refine ⟨?_, ?_, ?_, ?_⟩ <;> decide

/-- C3 amended: for every file whose content yields no classification
signal, classification falls back to filename matching on the lowercased
filename, using filename-specific keyword sets: sos requires both
strength of schedule and fantasy; projections matches any of projection,
fantasy, footballers; draftkings any of draftkings, dk, salaries;
nfl_odds any of odds, lines, betting; otherwise unknown. -/
theorem c3_filename_fallback_amended (filename : String) (readResult : Option String)
    (hnone : check_content_patterns readResult = none) :
    identify_source filename readResult = check_filename_patterns filename
    ∧ ((containsStr (strLower filename) "strength of schedule"
          && containsStr (strLower filename) "fantasy") = true →
        check_filename_patterns filename = "sos")
    ∧ ((containsStr (strLower filename) "strength of schedule"
          && containsStr (strLower filename) "fantasy") = false →
        (["projection", "fantasy", "footballers"].any
            (fun pattern => containsStr (strLower filename) pattern)) = true →
        check_filename_patterns filename = "projections")
    ∧ ((containsStr (strLower filename) "strength of schedule"
          && containsStr (strLower filename) "fantasy") = false →
        (["projection", "fantasy", "footballers"].any
            (fun pattern => containsStr (strLower filename) pattern)) = false →
        (["draftkings", "dk", "salaries"].any
            (fun pattern => containsStr (strLower filename) pattern)) = true →
        check_filename_patterns filename = "draftkings")
    ∧ ((containsStr (strLower filename) "strength of schedule"
          && containsStr (strLower filename) "fantasy") = false →
        (["projection", "fantasy", "footballers"].any
            (fun pattern => containsStr (strLower filename) pattern)) = false →
        (["draftkings", "dk", "salaries"].any
            (fun pattern => containsStr (strLower filename) pattern)) = false →
        (["odds", "lines", "betting"].any
            (fun pattern => containsStr (strLower filename) pattern)) = true →
        check_filename_patterns filename = "nfl_odds")
    ∧ ((containsStr (strLower filename) "strength of schedule"
          && containsStr (strLower filename) "fantasy") = false →
        (["projection", "fantasy", "footballers"].any
            (fun pattern => containsStr (strLower filename) pattern)) = false →
        (["draftkings", "dk", "salaries"].any
            (fun pattern => containsStr (strLower filename) pattern)) = false →
        (["odds", "lines", "betting"].any
            (fun pattern => containsStr (strLower filename) pattern)) = false →
        check_filename_patterns filename = "unknown") := by
  refine ⟨?_, ?_, ?_, ?_, ?_, ?_⟩
  · simp [identify_source, hnone]
  all_goals intros
  all_goals simp_all [check_filename_patterns]

/-- Witness for C3 amended: applied to the filename projpts.csv with an
unreadable content, whose fallback classification is unknown. -/
theorem c3_filename_fallback_amended_witness :
    identify_source "projpts.csv" none = check_filename_patterns "projpts.csv"
    ∧ check_filename_patterns "projpts.csv" = "unknown" :=
  ⟨(c3_filename_fallback_amended "projpts.csv" none (by decide)).1,
   (c3_filename_fallback_amended "projpts.csv" none (by decide)).2.2.2.2.2
     (by decide) (by decide) (by decide) (by decide)⟩

/-! ## Claim C7: classification of unreadable files -/

/-- C7: classification is a total function; when reading the content
fails the content check yields no signal (the None of the except branch
maps to no signal) and classification is decided by the filename step
alone; in particular an unreadable file named DK_Salaries_export.csv is
classified draftkings (the category the spec calls salaries). -/
theorem c7_unreadable_fallback (filename : String) :
    check_content_patterns none = none
    ∧ identify_source filename none = check_filename_patterns filename
    ∧ identify_source "DK_Salaries_export.csv" none = "draftkings" := by
  refine ⟨rfl, ?_, by decide⟩
  simp [identify_source, check_content_patterns]

/-! ## Claims C4 and C9: NFL week inference -/

theorem season_start_eq : NFL_SEASON_START_DATE = 739499 := by decide

theorem week1_monday_eq : week1_monday = 739495 := by decide

theorem first_sunday_eq : first_sunday = 739501 := by decide

/-- Closed form of the week function with the 2025 season constants. -/
theorem week_closed_form (d : Int) :
    get_current_nfl_week d = if d < 739499 then 1 else min 18 ((d - 739495) / 7 + 1) := by
  unfold get_current_nfl_week
  rw [season_start_eq, week1_monday_eq]
  have hfd : ∀ a : Int, a.fdiv 7 = a / 7 := fun a =>
    Int.fdiv_eq_ediv a (by norm_num)
  split
  · rfl
  · simp only [hfd, NFL_WEEKS_IN_SEASON]
    split <;> omega

/-- C4: with the fixed 2025 season parameters, the week function
returns 1 for any date before the season start, and otherwise the
floor of elapsed days since week1_monday divided by 7, plus one,
clamped to the interval from 1 to 18; the result always lies in that
interval; and week1_monday is the Monday on or immediately before the
first Sunday of the season (first_sunday is a Sunday, is the earliest
Sunday on or after the season start, and week1_monday is the Monday at
most six days before it). -/
theorem c4_week_inference (d : Int) :
    (d < NFL_SEASON_START_DATE → get_current_nfl_week d = 1)
    ∧ (NFL_SEASON_START_DATE ≤ d →
        get_current_nfl_week d
          = max 1 (min NFL_WEEKS_IN_SEASON ((d - week1_monday).fdiv 7 + 1)))
    ∧ (1 ≤ get_current_nfl_week d ∧ get_current_nfl_week d ≤ NFL_WEEKS_IN_SEASON)
    ∧ (weekdayOf week1_monday = 0 ∧ weekdayOf first_sunday = 6
        ∧ week1_monday ≤ first_sunday ∧ first_sunday - week1_monday < 7
        ∧ NFL_SEASON_START_DATE ≤ first_sunday
        ∧ ∀ sday : Int, NFL_SEASON_START_DATE ≤ sday → weekdayOf sday = 6 →
            first_sunday ≤ sday) := by
  refine ⟨?_, ?_, ?_, by decide, by decide, by decide, by decide, by decide, ?_⟩
  · intro h
    rw [week_closed_form, if_pos (by rw [season_start_eq] at h; exact h)]
  · intro h
    rw [week_closed_form, season_start_eq] at *
    rw [week1_monday_eq, Int.fdiv_eq_ediv _ (by norm_num : (0 : Int) ≤ 7)]
    simp only [NFL_WEEKS_IN_SEASON]
    rw [if_neg (by omega)]
    omega
  · rw [week_closed_form, NFL_WEEKS_IN_SEASON]
    split <;> omega
  · intro sday h1 h2
    rw [season_start_eq] at h1
    rw [first_sunday_eq]
    unfold weekdayOf at h2
    have h3 : (sday - 1) % 7 = 6 := h2
    omega

/-- Witness for C4: the day before the season start maps to week 1, and
a date in the second prep week satisfies the clamped floor formula. -/
theorem c4_week_inference_witness :
    get_current_nfl_week 739498 = 1
    ∧ get_current_nfl_week 739502
        = max 1 (min NFL_WEEKS_IN_SEASON ((739502 - week1_monday).fdiv 7 + 1)) :=
  ⟨(c4_week_inference 739498).1 (by decide),
   (c4_week_inference 739502).2.1 (by decide)⟩

/-- C9: the week function is monotonically non-decreasing in the date. -/
theorem c9_week_monotone (d1 d2 : Int) (h : d1 ≤ d2) :
    get_current_nfl_week d1 ≤ get_current_nfl_week d2 := by
  rw [week_closed_form, week_closed_form]
  split <;> split <;> omega

/-- Witness for C9 at two concrete dates. -/
theorem c9_week_monotone_witness :
    get_current_nfl_week 739495 ≤ get_current_nfl_week 739600 :=
  c9_week_monotone 739495 739600 (by decide)

/-! ## Lemmas about the organizer step -/

theorem latestPathOf_name_ends (fi : FileInfo) :
    strEndsWith (latestPathOf fi).name "_latest.csv" = true :=
  strEndsWith_append _ _

theorem path_ne_of_dir {p q : Path} (h : p.dir ≠ q.dir) : p ≠ q :=
  fun he => h (by rw [he])

theorem staging_ne_dest {q : Path} (hq : q.dir = Dir.sysDownloads)
    (fi : FileInfo) (t : String) : q ≠ destPathOf fi t := by
  apply path_ne_of_dir
  rw [hq]
  exact fun h => Dir.noConfusion h

theorem staging_ne_latest {q : Path} (hq : q.dir = Dir.sysDownloads)
    (fi : FileInfo) : q ≠ latestPathOf fi := by
  apply path_ne_of_dir
  rw [hq]
  exact fun h => Dir.noConfusion h

theorem dest_ne_latest_of_suffix {fi : FileInfo} {t : String}
    (h : strEndsWith (destPathOf fi t).name "_latest.csv" = false) :
    destPathOf fi t ≠ latestPathOf fi := by
  intro he
  have h2 := congrArg (fun p : Path => strEndsWith p.name "_latest.csv") he
  simp only [latestPathOf_name_ends, h] at h2
  exact Bool.noConfusion h2

theorem dest_ne_latest_of_t {fi : FileInfo} {t : String} (h : t ≠ "latest") :
    destPathOf fi t ≠ latestPathOf fi := by
  intro he
  apply h
  have hn : baseNameFor fi ++ "_" ++ t ++ ".csv" = baseNameFor fi ++ "_latest.csv" :=
    congrArg Path.name he
  have hd := congrArg String.data hn
  simp only [String.data_append, List.append_assoc] at hd
  have hsplit : (['_', 'l', 'a', 't', 'e', 's', 't', '.', 'c', 's', 'v'] : List Char)
      = ['_'] ++ (['l', 'a', 't', 'e', 's', 't'] ++ ['.', 'c', 's', 'v']) := by decide
  rw [hsplit] at hd
  have h1 := List.append_cancel_left hd
  have h2 := List.append_cancel_left h1
  have h3 := List.append_cancel_right h2
  have hlat : ("latest" : String).data = ['l', 'a', 't', 'e', 's', 't'] := by decide
  exact String.ext (h3.trans hlat.symm)

theorem destPathOf_t_inj {fi fj : FileInfo} (hb : baseNameFor fi = baseNameFor fj)
    {t1 t2 : String} (h : (destPathOf fi t1).name = (destPathOf fj t2).name) :
    t1 = t2 := by
  unfold destPathOf at h
  simp only at h
  rw [hb] at h
  have hd := congrArg String.data h
  simp only [String.data_append, List.append_assoc] at hd
  have h1 := List.append_cancel_left hd
  have h2 := List.append_cancel_left h1
  have h3 := List.append_cancel_right h2
  exact String.ext h3

/-- Full characterization of a successful step: with no operation
raising, a known non-unknown source, the staged file present, and the
three involved paths distinct, the step writes the staged data to the
timestamped destination and to the latest path, erases the staged
original, leaves every other path untouched, and reports the move. -/
theorem processOne_noFail_eq (t : String) (fs : FS) (fi : FileInfo) (d : FileData)
    (hsrc : fi.source ≠ "unknown")
    (hkey : sourceKeys.contains fi.source = true)
    (hstag : fsLookup fs fi.path = some d)
    (hpd : fi.path ≠ destPathOf fi t)
    (hpl : fi.path ≠ latestPathOf fi)
    (hdl : destPathOf fi t ≠ latestPathOf fi) :
    (∀ q : Path, fsLookup (processOne noFail t fs fi).1 q
        = if q = fi.path then none
          else if q = latestPathOf fi then some d
          else if q = destPathOf fi t then some d
          else fsLookup fs q)
    ∧ (processOne noFail t fs fi).2
        = some { source := fi.source, original := fi.path,
                 destination := destPathOf fi t, latest := latestPathOf fi,
                 size := fi.size } := by
  have hmem : fi.source ∈ sourceKeys := by simpa using hkey
  have e1 : fsCopy fs fi.path (destPathOf fi t) = some (fsWrite fs (destPathOf fi t) d) := by
    unfold fsCopy
    rw [hstag]
  have elk : fsLookup (fsWrite fs (destPathOf fi t) d) (latestPathOf fi)
      = fsLookup fs (latestPathOf fi) := by
    rw [fsLookup_write, if_neg (fun he => hdl he.symm)]
  by_cases hl : (fsLookup fs (latestPathOf fi)).isSome = true
  · have e2 : fsCopy (fsErase (fsWrite fs (destPathOf fi t) d) (latestPathOf fi))
        (destPathOf fi t) (latestPathOf fi)
        = some (fsWrite (fsErase (fsWrite fs (destPathOf fi t) d) (latestPathOf fi))
            (latestPathOf fi) d) := by
      unfold fsCopy
      rw [fsLookup_erase, if_neg hdl, fsLookup_write, if_pos rfl]
    have hrun : processOne noFail t fs fi
        = (fsErase (fsWrite (fsErase (fsWrite fs (destPathOf fi t) d) (latestPathOf fi))
              (latestPathOf fi) d) fi.path,
           some { source := fi.source, original := fi.path,
                  destination := destPathOf fi t, latest := latestPathOf fi,
                  size := fi.size }) := by
      simp [processOne, hsrc, hkey, hmem, noFail, e1, e2, elk, hl]
    rw [hrun]
    refine ⟨fun q => ?_, rfl⟩
    simp only [fsLookup_erase, fsLookup_write]
    by_cases h1 : q = fi.path <;> by_cases h2 : q = latestPathOf fi <;>
      by_cases h3 : q = destPathOf fi t <;>
        simp [h1, h2, h3, Ne.symm hpd, Ne.symm hpl, hdl, hpd, hpl]
  · have e2 : fsCopy (fsWrite fs (destPathOf fi t) d) (destPathOf fi t) (latestPathOf fi)
        = some (fsWrite (fsWrite fs (destPathOf fi t) d) (latestPathOf fi) d) := by
      unfold fsCopy
      rw [fsLookup_write, if_pos rfl]
    have hrun : processOne noFail t fs fi
        = (fsErase (fsWrite (fsWrite fs (destPathOf fi t) d) (latestPathOf fi) d) fi.path,
           some { source := fi.source, original := fi.path,
                  destination := destPathOf fi t, latest := latestPathOf fi,
                  size := fi.size }) := by
      simp [processOne, hsrc, hkey, hmem, noFail, e1, e2, elk, hl]
    rw [hrun]
    refine ⟨fun q => ?_, rfl⟩
    simp only [fsLookup_erase, fsLookup_write]

/-- Unknown files are skipped: the step is a complete no-op. -/
theorem processOne_unknown (failOp : FsOp → Bool) (t : String) (fs : FS)
    (fi : FileInfo) (hsrc : fi.source = "unknown") :
    processOne failOp t fs fi = (fs, none) := by
  unfold processOne
  rw [if_pos hsrc]

/-- Unpacking of a successful fsCopy. -/
theorem fsCopy_some {fs fs1 : FS} {src dst : Path}
    (h : fsCopy fs src dst = some fs1) :
    ∃ d0, fsLookup fs src = some d0 ∧ fs1 = fsWrite fs dst d0 := by
  unfold fsCopy at h
  cases hlk : fsLookup fs src with
  | none => rw [hlk] at h; exact absurd h (by simp)
  | some dd =>
    rw [hlk] at h
    refine ⟨dd, rfl, ?_⟩
    injection h with h
    exact h.symm

/-- Exhaustive description of the possible outcomes of one step, for
any failure oracle: either nothing happened, or the staged data d0 was
written to the destination and the step aborted there (with the old
latest possibly already unlinked), or both copies succeeded (which
requires the two copy operations not to have raised) and the step
either aborted before deleting the original or completed and reported
the move. -/
theorem processOne_cases (failOp : FsOp → Bool) (t : String) (fs : FS) (fi : FileInfo) :
    ((processOne failOp t fs fi).1 = fs ∧ (processOne failOp t fs fi).2 = none)
    ∨ (∃ d0, fsLookup fs fi.path = some d0
        ∧ fi.source ≠ "unknown" ∧ sourceKeys.contains fi.source = true
        ∧ ((((processOne failOp t fs fi).1 = fsWrite fs (destPathOf fi t) d0
              ∨ (processOne failOp t fs fi).1
                  = fsErase (fsWrite fs (destPathOf fi t) d0) (latestPathOf fi))
             ∧ (processOne failOp t fs fi).2 = none)
          ∨ (∃ d1 fsMid,
              (fsMid = fsWrite fs (destPathOf fi t) d0
                ∨ fsMid = fsErase (fsWrite fs (destPathOf fi t) d0) (latestPathOf fi))
              ∧ fsLookup fsMid (destPathOf fi t) = some d1
              ∧ failOp FsOp.copyDest = false ∧ failOp FsOp.copyLatest = false
              ∧ (((processOne failOp t fs fi).1 = fsWrite fsMid (latestPathOf fi) d1
                    ∧ (processOne failOp t fs fi).2 = none)
                ∨ ((processOne failOp t fs fi).1
                      = fsErase (fsWrite fsMid (latestPathOf fi) d1) fi.path
                    ∧ (processOne failOp t fs fi).2
                        = some { source := fi.source, original := fi.path,
                                 destination := destPathOf fi t,
                                 latest := latestPathOf fi,
                                 size := fi.size }))))) := by
  by_cases hu : fi.source = "unknown"
  · rw [processOne_unknown failOp t fs fi hu]
    exact Or.inl ⟨rfl, rfl⟩
  by_cases hk : sourceKeys.contains fi.source = true
  case neg =>
    have hkm : ¬ fi.source ∈ sourceKeys := by simpa using hk
    refine Or.inl ⟨?_, ?_⟩ <;> simp [processOne, hu, hkm]
  have hkm : fi.source ∈ sourceKeys := by simpa using hk
  by_cases hcd : failOp FsOp.copyDest = true
  · refine Or.inl ⟨?_, ?_⟩ <;> simp [processOne, hu, hkm, hcd]
  cases heq : fsCopy fs fi.path (destPathOf fi t) with
  | none =>
    refine Or.inl ⟨?_, ?_⟩ <;> simp [processOne, hu, hkm, hcd, heq]
  | some fs1 =>
    obtain ⟨d0, hd0, rfl⟩ := fsCopy_some heq
    refine Or.inr ⟨d0, hd0, hu, hk, ?_⟩
    by_cases hul : ((fsLookup (fsWrite fs (destPathOf fi t) d0) (latestPathOf fi)).isSome
        && failOp FsOp.unlinkLatest) = true
    · refine Or.inl ⟨Or.inl ?_, ?_⟩ <;> simp [processOne, hu, hkm, hcd, heq, hul]
    by_cases hE : (fsLookup (fsWrite fs (destPathOf fi t) d0) (latestPathOf fi)).isSome = true
    · have hul2 : ¬ failOp FsOp.unlinkLatest = true := by simpa [hE] using hul
      by_cases hcl : failOp FsOp.copyLatest = true
      · refine Or.inl ⟨Or.inr ?_, ?_⟩ <;> simp [processOne, hu, hkm, hcd, heq, hul, hul2, hE, hcl]
      cases heq2 : fsCopy (fsErase (fsWrite fs (destPathOf fi t) d0) (latestPathOf fi))
          (destPathOf fi t) (latestPathOf fi) with
      | none =>
        refine Or.inl ⟨Or.inr ?_, ?_⟩ <;>
          simp [processOne, hu, hkm, hcd, heq, hul, hul2, hE, hcl, heq2]
      | some fs3 =>
        obtain ⟨d1, hd1, rfl⟩ := fsCopy_some heq2
        refine Or.inr ⟨d1, fsErase (fsWrite fs (destPathOf fi t) d0) (latestPathOf fi),
          Or.inr rfl, hd1, Bool.not_eq_true _ ▸ hcd, Bool.not_eq_true _ ▸ hcl, ?_⟩
        by_cases huo : failOp FsOp.unlinkOrig = true
        · refine Or.inl ⟨?_, ?_⟩ <;>
            simp [processOne, hu, hkm, hcd, heq, hul, hul2, hE, hcl, heq2, huo]
        · refine Or.inr ⟨?_, ?_⟩ <;>
            simp [processOne, hu, hkm, hcd, heq, hul, hul2, hE, hcl, heq2, huo]
    · by_cases hcl : failOp FsOp.copyLatest = true
      · refine Or.inl ⟨Or.inl ?_, ?_⟩ <;> simp [processOne, hu, hkm, hcd, heq, hul, hE, hcl]
      cases heq2 : fsCopy (fsWrite fs (destPathOf fi t) d0)
          (destPathOf fi t) (latestPathOf fi) with
      | none =>
        refine Or.inl ⟨Or.inl ?_, ?_⟩ <;>
          simp [processOne, hu, hkm, hcd, heq, hul, hE, hcl, heq2]
      | some fs3 =>
        obtain ⟨d1, hd1, rfl⟩ := fsCopy_some heq2
        refine Or.inr ⟨d1, fsWrite fs (destPathOf fi t) d0,
          Or.inl rfl, hd1, Bool.not_eq_true _ ▸ hcd, Bool.not_eq_true _ ▸ hcl, ?_⟩
        by_cases huo : failOp FsOp.unlinkOrig = true
        · refine Or.inl ⟨?_, ?_⟩ <;>
            simp [processOne, hu, hkm, hcd, heq, hul, hE, hcl, heq2, huo]
        · refine Or.inr ⟨?_, ?_⟩ <;>
            simp [processOne, hu, hkm, hcd, heq, hul, hE, hcl, heq2, huo]

/-- Whatever happens during a step (including failures), a path that is
not the staged original, not the timestamped destination and not the
latest path of the file is untouched. -/
theorem processOne_frame (failOp : FsOp → Bool) (t : String) (fs : FS) (fi : FileInfo)
    (q : Path) (h1 : q ≠ fi.path) (h2 : q ≠ destPathOf fi t) (h3 : q ≠ latestPathOf fi) :
    fsLookup (processOne failOp t fs fi).1 q = fsLookup fs q := by
  rcases processOne_cases failOp t fs fi with ⟨ha, -⟩ | ⟨d0, hd0, -, -, hcase⟩
  · rw [ha]
  rcases hcase with ⟨hb | hb, -⟩ | ⟨d1, fsMid, hmid, -, -, -, ⟨hc, -⟩ | ⟨hc, -⟩⟩
  · rw [hb, fsLookup_write, if_neg h2]
  · rw [hb, fsLookup_erase, if_neg h3, fsLookup_write, if_neg h2]
  · rw [hc, fsLookup_write, if_neg h3]
    rcases hmid with rfl | rfl
    · rw [fsLookup_write, if_neg h2]
    · rw [fsLookup_erase, if_neg h3, fsLookup_write, if_neg h2]
  · rw [hc, fsLookup_erase, if_neg h1, fsLookup_write, if_neg h3]
    rcases hmid with rfl | rfl
    · rw [fsLookup_write, if_neg h2]
    · rw [fsLookup_erase, if_neg h3, fsLookup_write, if_neg h2]

/-- If the copy to the destination or the copy to the latest file
raises, the staged original is untouched by the step and no move is
reported. -/
theorem processOne_copyFail (failOp : FsOp → Bool) (t : String) (fs : FS) (fi : FileInfo)
    (hfail : failOp FsOp.copyDest = true ∨ failOp FsOp.copyLatest = true)
    (h2 : fi.path ≠ destPathOf fi t) (h3 : fi.path ≠ latestPathOf fi) :
    fsLookup (processOne failOp t fs fi).1 fi.path = fsLookup fs fi.path
    ∧ (processOne failOp t fs fi).2 = none := by
  rcases processOne_cases failOp t fs fi with ⟨ha, hn⟩ | ⟨d0, hd0, -, -, hcase⟩
  · rw [ha]
    exact ⟨rfl, hn⟩
  rcases hcase with ⟨hb | hb, hn⟩ | ⟨d1, fsMid, hmid, -, hcd, hcl, -⟩
  · rw [hb, fsLookup_write, if_neg h2]
    exact ⟨rfl, hn⟩
  · rw [hb, fsLookup_erase, if_neg h3, fsLookup_write, if_neg h2]
    exact ⟨rfl, hn⟩
  · rcases hfail with hf | hf
    · exact absurd hcd (by simp [hf])
    · exact absurd hcl (by simp [hf])

/-- If a step removed the staged original, then both the destination
copy and the latest copy are present afterwards with the original bytes
and the move was reported: deletion happens only after both copies
succeeded. -/
theorem processOne_delete_implies (failOp : FsOp → Bool) (t : String) (fs : FS)
    (fi : FileInfo) (d : FileData)
    (hstag : fsLookup fs fi.path = some d)
    (h2 : fi.path ≠ destPathOf fi t) (h3 : fi.path ≠ latestPathOf fi)
    (hdel : fsLookup (processOne failOp t fs fi).1 fi.path = none) :
    fsLookup (processOne failOp t fs fi).1 (destPathOf fi t) = some d
    ∧ fsLookup (processOne failOp t fs fi).1 (latestPathOf fi) = some d
    ∧ (processOne failOp t fs fi).2
        = some { source := fi.source, original := fi.path,
                 destination := destPathOf fi t, latest := latestPathOf fi,
                 size := fi.size } := by
  rcases processOne_cases failOp t fs fi with ⟨ha, -⟩ | ⟨d0, hd0, -, -, hcase⟩
  · rw [ha, hstag] at hdel
    exact absurd hdel (by simp)
  have hd0d : d0 = d := by
    rw [hd0] at hstag
    injection hstag
  subst hd0d
  rcases hcase with ⟨hb | hb, -⟩ | ⟨d1, fsMid, hmid, hmd, -, -, ⟨hc, -⟩ | ⟨hc, hm⟩⟩
  · rw [hb, fsLookup_write, if_neg h2, hstag] at hdel
    exact absurd hdel (by simp)
  · rw [hb, fsLookup_erase, if_neg h3, fsLookup_write, if_neg h2, hstag] at hdel
    exact absurd hdel (by simp)
  · rw [hc, fsLookup_write, if_neg h3] at hdel
    have hpres : fsLookup fsMid fi.path = some d0 := by
      rcases hmid with rfl | rfl
      · rw [fsLookup_write, if_neg h2]
        exact hstag
      · rw [fsLookup_erase, if_neg h3, fsLookup_write, if_neg h2]
        exact hstag
    rw [hpres] at hdel
    exact absurd hdel (by simp)
  · have hd1 : d1 = d0 := by
      rcases hmid with rfl | rfl
      · rw [fsLookup_write, if_pos rfl] at hmd
        injection hmd with h
        exact h.symm
      · rw [fsLookup_erase] at hmd
        by_cases hdl : destPathOf fi t = latestPathOf fi
        · rw [if_pos hdl] at hmd
          exact absurd hmd (by simp)
        · rw [if_neg hdl, fsLookup_write, if_pos rfl] at hmd
          injection hmd with h
          exact h.symm
    subst hd1
    refine ⟨?_, ?_, hm⟩
    · rw [hc, fsLookup_erase, if_neg (fun he => h2 he.symm), fsLookup_write]
      by_cases hdl : destPathOf fi t = latestPathOf fi
      · rw [if_pos hdl]
      · rw [if_neg hdl]
        exact hmd
    · rw [hc, fsLookup_erase, if_neg (fun he => h3 he.symm), fsLookup_write, if_pos rfl]

/-- A reported move identifies its staged original, its source is not
unknown, and neither copy operation raised. -/
theorem processOne_moved (failOp : FsOp → Bool) (t : String) (fs : FS) (fi : FileInfo)
    (mv : MovedFile) (h : (processOne failOp t fs fi).2 = some mv) :
    mv.original = fi.path ∧ fi.source ≠ "unknown"
    ∧ failOp FsOp.copyDest = false ∧ failOp FsOp.copyLatest = false := by
  rcases processOne_cases failOp t fs fi with ⟨-, hn⟩ | ⟨d0, hd0, hu, hk, hcase⟩
  · rw [hn] at h
    exact absurd h (by simp)
  rcases hcase with ⟨-, hn⟩ | ⟨d1, fsMid, -, -, hcd, hcl, ⟨-, hn⟩ | ⟨-, hm⟩⟩
  · rw [hn] at h
    exact absurd h (by simp)
  · rw [hn] at h
    exact absurd h (by simp)
  · rw [hm] at h
    injection h with h
    refine ⟨?_, hu, hcd, hcl⟩
    rw [← h]

/-- The loop processes a concatenation by running the first part, then
the second from the resulting state, concatenating the reports. -/
theorem organizeGo_append (failOp : Nat → FsOp → Bool) (ts : Nat → String) :
    ∀ (l1 l2 : List FileInfo) (n : Nat) (fs : FS),
    organizeGo failOp ts n fs (l1 ++ l2)
      = ((organizeGo failOp ts (n + l1.length) (organizeGo failOp ts n fs l1).1 l2).1,
         (organizeGo failOp ts n fs l1).2
           ++ (organizeGo failOp ts (n + l1.length) (organizeGo failOp ts n fs l1).1 l2).2) := by
  intro l1
  induction l1 with
  | nil =>
    intro l2 n fs
    simp [organizeGo]
  | cons fi rest ih =>
    intro l2 n fs
    simp only [List.cons_append, organizeGo]
    simp only [List.append_eq]
    rw [ih l2 (n + 1) (processOne (failOp n) (ts n) fs fi).1]
    have hlen : n + 1 + rest.length = n + (fi :: rest).length := by
      simp [List.length_cons]
      omega
    rw [hlen]
    cases (processOne (failOp n) (ts n) fs fi).2 <;> simp

/-- Run-level frame: a path different from every staged original and
from every destination and latest path of the processed files is
untouched by the whole run. -/
theorem organizeGo_frame (failOp : Nat → FsOp → Bool) (ts : Nat → String) :
    ∀ (files : List FileInfo) (n : Nat) (fs : FS) (q : Path),
    (∀ j (hj : j < files.length),
        q ≠ (files.get ⟨j, hj⟩).path
        ∧ q ≠ destPathOf (files.get ⟨j, hj⟩) (ts (n + j))
        ∧ q ≠ latestPathOf (files.get ⟨j, hj⟩)) →
    fsLookup (organizeGo failOp ts n fs files).1 q = fsLookup fs q := by
  intro files
  induction files with
  | nil =>
    intro n fs q h
    rfl
  | cons fi rest ih =>
    intro n fs q h
    have h0 := h 0 (by simp)
    simp only [List.get_cons_zero, Nat.add_zero] at h0
    simp only [organizeGo]
    rw [ih (n + 1) (processOne (failOp n) (ts n) fs fi).1 q ?_]
    · exact processOne_frame _ _ _ _ _ h0.1 h0.2.1 h0.2.2
    · intro j hj
      have hj2 : j + 1 < (fi :: rest).length := by
        simp [List.length_cons]
        omega
      have := h (j + 1) hj2
      simp only [List.get_cons_succ] at this
      have hts : n + (j + 1) = n + 1 + j := by omega
      rw [hts] at this
      exact this

/-- Every reported move of a run comes from a step on one of the input
files: its original is that file staged path, the file source is not
unknown, and neither copy of that step raised. -/
theorem organizeGo_moved (failOp : Nat → FsOp → Bool) (ts : Nat → String) :
    ∀ (files : List FileInfo) (n : Nat) (fs : FS) (mv : MovedFile),
    mv ∈ (organizeGo failOp ts n fs files).2 →
    ∃ j, ∃ hj : j < files.length,
      mv.original = (files.get ⟨j, hj⟩).path
      ∧ (files.get ⟨j, hj⟩).source ≠ "unknown"
      ∧ failOp (n + j) FsOp.copyDest = false ∧ failOp (n + j) FsOp.copyLatest = false := by
  intro files
  induction files with
  | nil =>
    intro n fs mv h
    simp [organizeGo] at h
  | cons fi rest ih =>
    intro n fs mv h
    simp only [organizeGo] at h
    have hsplit : (processOne (failOp n) (ts n) fs fi).2 = some mv
        ∨ mv ∈ (organizeGo failOp ts (n + 1) (processOne (failOp n) (ts n) fs fi).1 rest).2 := by
      cases hm : (processOne (failOp n) (ts n) fs fi).2 with
      | none =>
        rw [hm] at h
        exact Or.inr h
      | some mv0 =>
        rw [hm] at h
        rcases List.mem_cons.mp h with rfl | hmem
        · exact Or.inl rfl
        · exact Or.inr hmem
    rcases hsplit with hstep | hrest
    · obtain ⟨ho, hu, hcd, hcl⟩ := processOne_moved _ _ _ _ _ hstep
      exact ⟨0, by simp, by simpa using ho, by simpa using hu, by simpa using hcd,
        by simpa using hcl⟩
    · obtain ⟨j, hj, ho, hu, hcd, hcl⟩ := ih (n + 1) _ mv hrest
      refine ⟨j + 1, by simpa using Nat.succ_lt_succ hj, ?_, ?_, ?_, ?_⟩
      · simpa [List.get_cons_succ] using ho
      · simpa [List.get_cons_succ] using hu
      · have hts : n + (j + 1) = n + 1 + j := by omega
        rw [hts]
        exact hcd
      · have hts : n + (j + 1) = n + 1 + j := by omega
        rw [hts]
        exact hcl

/-- The state after i + 1 files is the step applied to the state after
i files. -/
theorem organizeStateAt_succ (failOp : Nat → FsOp → Bool) (ts : Nat → String)
    (fs : FS) (files : List FileInfo) (i : Nat) (hi : i < files.length) :
    organizeStateAt failOp ts fs files (i + 1)
      = (processOne (failOp i) (ts i) (organizeStateAt failOp ts fs files i) files[i]).1 := by
  unfold organizeStateAt
  rw [List.take_succ, List.getElem?_eq_getElem hi]
  simp only [Option.toList_some]
  rw [organizeGo_append]
  have hlen : (files.take i).length = i := by
    rw [List.length_take]
    omega
  rw [hlen]
  simp [organizeGo]

/-- Decomposition of a whole run around position i: the prefix is
processed first, then the step for file i from the accumulated state,
then the remaining files; the reports concatenate accordingly. -/
theorem organize_decomp (failOp : Nat → FsOp → Bool) (ts : Nat → String)
    (fs : FS) (files : List FileInfo) (i : Nat) (hi : i < files.length) :
    (move_and_organize_files failOp ts fs files).1
      = (organizeGo failOp ts (i + 1)
          (organizeStateAt failOp ts fs files (i + 1)) (files.drop (i + 1))).1
    ∧ (move_and_organize_files failOp ts fs files).2
      = (organizeGo failOp ts 0 fs (files.take i)).2
        ++ (match (processOne (failOp i) (ts i) (organizeStateAt failOp ts fs files i)
              files[i]).2 with
            | some mv => mv :: (organizeGo failOp ts (i + 1)
                (organizeStateAt failOp ts fs files (i + 1)) (files.drop (i + 1))).2
            | none => (organizeGo failOp ts (i + 1)
                (organizeStateAt failOp ts fs files (i + 1)) (files.drop (i + 1))).2) := by
  have hsucc := organizeStateAt_succ failOp ts fs files i hi
  have hfiles : files = files.take i ++ files[i] :: files.drop (i + 1) := by
    rw [← List.drop_eq_getElem_cons hi, List.take_append_drop]
  have hlen : (files.take i).length = i := by
    rw [List.length_take]
    omega
  have hstA : organizeStateAt failOp ts fs files i
      = (organizeGo failOp ts 0 fs (files.take i)).1 := rfl
  constructor
  · conv in move_and_organize_files failOp ts fs files => rw [move_and_organize_files, hfiles]
    rw [organizeGo_append, hlen]
    simp only [organizeGo]
    simp only [Nat.zero_add, ← hstA]
    rw [← hsucc]
  · conv in move_and_organize_files failOp ts fs files => rw [move_and_organize_files, hfiles]
    rw [organizeGo_append, hlen]
    simp only [organizeGo]
    simp only [Nat.zero_add, ← hstA]
    rw [← hsucc]

/-! ## Claim C5: crash-safety ordering of organize -/

/-- C5: for every staged file processed by move_and_organize_files, the
original is deleted only after both the timestamped destination copy
and the latest copy succeeded (conjunct 1: if the state after step i
lost the original that the state before step i still had, then both
copies hold its bytes and the move was reported); if either copy raises
the original is exactly as it was before the whole run and no move
record for it is reported (conjunct 2); and the remaining files are
still processed: the report list of the whole run is the report list of
the files before i, followed by the report of step i, followed by the
report list of the remaining files processed from the state left behind
by step i (conjunct 3, which holds whether or not step i failed). -/
theorem c5_crash_safety_ordering (failOp : Nat → FsOp → Bool) (ts : Nat → String)
    (fs : FS) (files : List FileInfo) (i : Nat) (hi : i < files.length)
    (hdirI : files[i].path.dir = Dir.sysDownloads)
    (hT : ∀ fj ∈ files.take i, fj.path ≠ files[i].path)
    (hD : ∀ fj ∈ files.drop (i + 1), fj.path ≠ files[i].path) :
    (∀ d, fsLookup (organizeStateAt failOp ts fs files i) files[i].path = some d →
      fsLookup (organizeStateAt failOp ts fs files (i + 1)) files[i].path = none →
      fsLookup (organizeStateAt failOp ts fs files (i + 1))
          (destPathOf files[i] (ts i)) = some d
        ∧ fsLookup (organizeStateAt failOp ts fs files (i + 1))
            (latestPathOf files[i]) = some d
        ∧ (processOne (failOp i) (ts i) (organizeStateAt failOp ts fs files i)
              files[i]).2
            = some { source := files[i].source, original := files[i].path,
                     destination := destPathOf files[i] (ts i),
                     latest := latestPathOf files[i], size := files[i].size })
    ∧ ((failOp i FsOp.copyDest = true ∨ failOp i FsOp.copyLatest = true) →
        fsLookup (move_and_organize_files failOp ts fs files).1 files[i].path
          = fsLookup fs files[i].path
        ∧ ∀ mv ∈ (move_and_organize_files failOp ts fs files).2,
            mv.original ≠ files[i].path)
    ∧ (move_and_organize_files failOp ts fs files).2
        = (organizeGo failOp ts 0 fs (files.take i)).2
          ++ (match (processOne (failOp i) (ts i)
                (organizeStateAt failOp ts fs files i) files[i]).2 with
              | some mv => mv :: (organizeGo failOp ts (i + 1)
                  (organizeStateAt failOp ts fs files (i + 1)) (files.drop (i + 1))).2
              | none => (organizeGo failOp ts (i + 1)
                  (organizeStateAt failOp ts fs files (i + 1)) (files.drop (i + 1))).2) := by
  have hpd : files[i].path ≠ destPathOf files[i] (ts i) := staging_ne_dest hdirI _ _
  have hpl : files[i].path ≠ latestPathOf files[i] := staging_ne_latest hdirI _
  refine ⟨?_, ?_, (organize_decomp failOp ts fs files i hi).2⟩
  · intro d hsome hnone
    rw [organizeStateAt_succ failOp ts fs files i hi] at hnone ⊢
    exact processOne_delete_implies _ _ _ _ _ hsome hpd hpl hnone
  · intro hfail
    have hstep := processOne_copyFail (failOp i) (ts i)
      (organizeStateAt failOp ts fs files i) files[i] hfail hpd hpl
    have htake : fsLookup (organizeStateAt failOp ts fs files i) files[i].path
        = fsLookup fs files[i].path := by
      unfold organizeStateAt
      apply organizeGo_frame
      intro j hj
      exact ⟨Ne.symm (hT _ (List.get_mem _ _ _)),
        staging_ne_dest hdirI _ _, staging_ne_latest hdirI _⟩
    constructor
    · rw [(organize_decomp failOp ts fs files i hi).1]
      rw [organizeGo_frame failOp ts (files.drop (i + 1)) (i + 1) _ _ ?_]
      · rw [organizeStateAt_succ failOp ts fs files i hi, hstep.1, htake]
      · intro j hj
        exact ⟨Ne.symm (hD _ (List.get_mem _ _ _)),
          staging_ne_dest hdirI _ _, staging_ne_latest hdirI _⟩
    · rw [(organize_decomp failOp ts fs files i hi).2, hstep.2]
      intro mv hmv
      rcases List.mem_append.mp hmv with hmem | hmem
      · obtain ⟨j, hj, ho, -, -, -⟩ := organizeGo_moved failOp ts (files.take i) 0 fs mv hmem
        rw [ho]
        exact hT _ (List.get_mem _ _ _)
      · obtain ⟨j, hj, ho, -, -, -⟩ := organizeGo_moved failOp ts (files.drop (i + 1))
          (i + 1) _ mv hmem
        rw [ho]
        exact hD _ (List.get_mem _ _ _)

/-- Witness for C5: with a single staged projections file and an oracle
under which the copy to the latest file raises, the staged original is
untouched by the run and no move is reported. -/
theorem c5_crash_safety_ordering_witness :
    fsLookup (move_and_organize_files failCopyLatest tsSame fsAB [stagedA]).1 stagedA.path
      = fsLookup fsAB stagedA.path
    ∧ ∀ mv ∈ (move_and_organize_files failCopyLatest tsSame fsAB [stagedA]).2,
        mv.original ≠ stagedA.path :=
  (c5_crash_safety_ordering failCopyLatest tsSame fsAB [stagedA] 0 (by decide)
    (by decide) (by decide) (by decide)).2.1 (Or.inr (by decide))

/-! ## Claim C6: unknown files are skipped untouched -/

/-- C6: a staged file classified unknown is skipped by
move_and_organize_files: its step changes nothing and reports nothing
(for any state, clock and failure oracle), after the whole run the file
is exactly as it was in the initial state, and it appears in no
reported move. -/
theorem c6_unknown_left_in_place (failOp : Nat → FsOp → Bool) (ts : Nat → String)
    (fs : FS) (files : List FileInfo) (i : Nat) (hi : i < files.length)
    (hsrc : files[i].source = "unknown")
    (hdirI : files[i].path.dir = Dir.sysDownloads)
    (hT : ∀ fj ∈ files.take i, fj.path ≠ files[i].path)
    (hD : ∀ fj ∈ files.drop (i + 1), fj.path ≠ files[i].path) :
    (∀ (failOp0 : FsOp → Bool) (t0 : String) (fs0 : FS),
        processOne failOp0 t0 fs0 files[i] = (fs0, none))
    ∧ organizeStateAt failOp ts fs files (i + 1) = organizeStateAt failOp ts fs files i
    ∧ fsLookup (move_and_organize_files failOp ts fs files).1 files[i].path
        = fsLookup fs files[i].path
    ∧ ∀ mv ∈ (move_and_organize_files failOp ts fs files).2,
        mv.original ≠ files[i].path := by
  have htake : fsLookup (organizeStateAt failOp ts fs files i) files[i].path
      = fsLookup fs files[i].path := by
    unfold organizeStateAt
    apply organizeGo_frame
    intro j hj
    exact ⟨Ne.symm (hT _ (List.get_mem _ _ _)),
      staging_ne_dest hdirI _ _, staging_ne_latest hdirI _⟩
  refine ⟨fun failOp0 t0 fs0 => processOne_unknown failOp0 t0 fs0 _ hsrc, ?_, ?_, ?_⟩
  · rw [organizeStateAt_succ failOp ts fs files i hi, processOne_unknown _ _ _ _ hsrc]
  · rw [(organize_decomp failOp ts fs files i hi).1]
    rw [organizeGo_frame failOp ts (files.drop (i + 1)) (i + 1) _ _ ?_]
    · rw [organizeStateAt_succ failOp ts fs files i hi, processOne_unknown _ _ _ _ hsrc]
      exact htake
    · intro j hj
      exact ⟨Ne.symm (hD _ (List.get_mem _ _ _)),
        staging_ne_dest hdirI _ _, staging_ne_latest hdirI _⟩
  · rw [(organize_decomp failOp ts fs files i hi).2]
    have hstep : (processOne (failOp i) (ts i)
        (organizeStateAt failOp ts fs files i) files[i]).2 = none := by
      rw [processOne_unknown _ _ _ _ hsrc]
    rw [hstep]
    intro mv hmv
    rcases List.mem_append.mp hmv with hmem | hmem
    · obtain ⟨j, hj, ho, -, -, -⟩ := organizeGo_moved failOp ts (files.take i) 0 fs mv hmem
      rw [ho]
      exact hT _ (List.get_mem _ _ _)
    · obtain ⟨j, hj, ho, -, -, -⟩ := organizeGo_moved failOp ts (files.drop (i + 1))
        (i + 1) _ mv hmem
      rw [ho]
      exact hD _ (List.get_mem _ _ _)

/-- Witness for C6: a run over a projections file and an unknown file
leaves the unknown file in staging with its original data. -/
theorem c6_unknown_left_in_place_witness :
    fsLookup (move_and_organize_files noFailures tsSame fsAU [stagedA, stagedU]).1
        stagedU.path
      = fsLookup fsAU stagedU.path :=
  (c6_unknown_left_in_place noFailures tsSame fsAU [stagedA, stagedU] 1 (by decide)
    (by decide) (by decide) (by decide) (by decide)).2.2.1

/-! ## Claim C1: the latest-file invariant of organize -/

theorem noFailures_eq (n : Nat) : noFailures n = noFail := rfl

/-- C1 amended: consider a run of move_and_organize_files in which no
operation raises, over staged files that all belong to the same source
s and the same base slug b (for sos files the slug carries the position,
as the data model prescribes), all staged in the system downloads
directory at pairwise distinct paths and all present, and suppose the
minute-resolution timestamps drawn for the files are pairwise distinct
and produce destination names that do not end in _latest.csv.  Then
after the run: the latest file of the slug holds exactly the bytes of
the most recently organized file (conjunct 1); any other latest-named
path in any project directory is untouched, so if no latest file
existed beforehand, the slug latest file is the only one (conjunct 2);
and the timestamped copy of every organized file, in particular of the
first of two same-slug files, still holds that file staged bytes
(conjunct 3).  The timestamp-distinctness hypothesis is the amendment:
without it conjunct 3 fails, see the counterexample. -/
theorem c1_latest_invariant_amended (ts : Nat → String) (fs : FS)
    (files : List FileInfo) (s b : String)
    (hs : sourceKeys.contains s = true)
    (hall : ∀ fi ∈ files, fi.source = s ∧ baseNameFor fi = b)
    (hdirs : ∀ fi ∈ files, fi.path.dir = Dir.sysDownloads)
    (hpres : ∀ fi ∈ files, (fsLookup fs fi.path).isSome = true)
    (hnod : (files.map FileInfo.path).Nodup)
    (hts1 : ∀ j, j < files.length →
        strEndsWith (b ++ "_" ++ ts j ++ ".csv") "_latest.csv" = false)
    (hts2 : ∀ j k, j < files.length → k < files.length → j ≠ k → ts j ≠ ts k) :
    (∀ h : files ≠ [],
        fsLookup (move_and_organize_files noFailures ts fs files).1
            ⟨Dir.category s, b ++ "_latest.csv"⟩
          = fsLookup fs (files.getLast h).path)
    ∧ (∀ q : Path, q.dir ≠ Dir.sysDownloads →
        strEndsWith q.name "_latest.csv" = true →
        q ≠ ⟨Dir.category s, b ++ "_latest.csv"⟩ →
        fsLookup (move_and_organize_files noFailures ts fs files).1 q = fsLookup fs q)
    ∧ (∀ j (hj : j < files.length),
        fsLookup (move_and_organize_files noFailures ts fs files).1
            (destPathOf files[j] (ts j))
          = fsLookup fs files[j].path) := by
  have hsu : s ≠ "unknown" := by
    intro h
    rw [h] at hs
    exact absurd hs (by decide)
  have hlatest : ∀ fi ∈ files, latestPathOf fi
      = (⟨Dir.category s, b ++ "_latest.csv"⟩ : Path) := by
    intro fi hm
    obtain ⟨h1, h2⟩ := hall fi hm
    unfold latestPathOf
    rw [h1, h2]
  have hdestn : ∀ fi ∈ files, ∀ t, destPathOf fi t
      = (⟨Dir.category s, b ++ "_" ++ t ++ ".csv"⟩ : Path) := by
    intro fi hm t
    obtain ⟨h1, h2⟩ := hall fi hm
    unfold destPathOf
    rw [h1, h2]
  have hlpsuf : strEndsWith (b ++ "_latest.csv") "_latest.csv" = true :=
    strEndsWith_append _ _
  have hdsuf : ∀ fi ∈ files, ∀ j, j < files.length →
      strEndsWith (destPathOf fi (ts j)).name "_latest.csv" = false := by
    intro fi hm j hj
    rw [hdestn fi hm]
    exact hts1 j hj
  have hdne : ∀ fi ∈ files, ∀ j, j < files.length →
      destPathOf fi (ts j) ≠ (⟨Dir.category s, b ++ "_latest.csv"⟩ : Path) := by
    intro fi hm j hj he
    have h2 := congrArg (fun p : Path => strEndsWith p.name "_latest.csv") he
    simp only at h2
    rw [hdsuf fi hm j hj] at h2
    exact Bool.noConfusion (h2.trans hlpsuf)
  have hdd : ∀ (j k : Nat), ∀ hj : j < files.length, ∀ hk : k < files.length, j ≠ k →
      destPathOf files[j] (ts j) ≠ destPathOf files[k] (ts k) := by
    intro j k hj hk hjk he
    have hb1 : baseNameFor files[j] = b := (hall _ (List.getElem_mem hj)).2
    have hb2 : baseNameFor files[k] = b := (hall _ (List.getElem_mem hk)).2
    exact hts2 j k hj hk hjk
      (destPathOf_t_inj (hb1.trans hb2.symm) (congrArg Path.name he))
  have hpinj : ∀ (j k : Nat), ∀ hj : j < files.length, ∀ hk : k < files.length,
      files[j].path = files[k].path → j = k := by
    intro j k hj hk he
    have hj2 : j < (files.map FileInfo.path).length := by simpa using hj
    have hk2 : k < (files.map FileInfo.path).length := by simpa using hk
    have he2 : (files.map FileInfo.path).get ⟨j, hj2⟩
        = (files.map FileInfo.path).get ⟨k, hk2⟩ := by
      simpa using he
    have := (List.nodup_iff_injective_get.mp hnod) he2
    exact congrArg Fin.val this
  have hstagefr : ∀ (j : Nat) (hj : j < files.length),
      fsLookup (organizeStateAt noFailures ts fs files j) files[j].path
        = fsLookup fs files[j].path := by
    intro j hj
    unfold organizeStateAt
    apply organizeGo_frame
    intro k hk
    have hkj : k < j := by
      rw [List.length_take] at hk
      omega
    have hk2 : k < files.length := by omega
    have hgtk : (files.take j).get ⟨k, hk⟩ = files[k] := by
      simp [List.getElem_take]
    rw [hgtk]
    refine ⟨fun he => ?_, staging_ne_dest (hdirs _ (List.getElem_mem hj)) _ _,
      staging_ne_latest (hdirs _ (List.getElem_mem hj)) _⟩
    exact absurd (hpinj j k hj hk2 he) (by omega)
  refine ⟨?_, ?_, ?_⟩
  · -- conjunct 1: the latest file holds the bytes of the last file
    intro hne
    have hlen0 : 0 < files.length := List.length_pos.mpr hne
    have hm : files.length - 1 < files.length := by omega
    rw [List.getLast_eq_getElem]
    rw [(organize_decomp noFailures ts fs files (files.length - 1) hm).1]
    rw [List.drop_eq_nil_of_le (by omega)]
    simp only [organizeGo]
    rw [organizeStateAt_succ noFailures ts fs files _ hm, noFailures_eq]
    have hpres2 : (fsLookup (organizeStateAt noFailures ts fs files (files.length - 1))
        files[files.length - 1].path).isSome = true := by
      rw [hstagefr _ hm]
      exact hpres _ (List.getElem_mem hm)
    obtain ⟨d, hd⟩ := Option.isSome_iff_exists.mp hpres2
    have hchar := (processOne_noFail_eq (ts (files.length - 1))
      (organizeStateAt noFailures ts fs files (files.length - 1))
      files[files.length - 1] d
      (by rw [(hall _ (List.getElem_mem hm)).1]; exact hsu)
      (by rw [(hall _ (List.getElem_mem hm)).1]; exact hs)
      hd
      (staging_ne_dest (hdirs _ (List.getElem_mem hm)) _ _)
      (staging_ne_latest (hdirs _ (List.getElem_mem hm)) _)
      (by rw [hlatest _ (List.getElem_mem hm)]; exact hdne _ (List.getElem_mem hm) _ hm)).1
      ⟨Dir.category s, b ++ "_latest.csv"⟩
    rw [hchar]
    rw [if_neg (fun he => (staging_ne_latest (hdirs _ (List.getElem_mem hm)) _)
      (by rw [hlatest _ (List.getElem_mem hm)]; exact he.symm))]
    rw [hlatest _ (List.getElem_mem hm), if_pos rfl]
    rw [← hstagefr _ hm, hd]
  · -- conjunct 2: any other latest-named project path is untouched
    intro q hqd hqsuf hqlp
    unfold move_and_organize_files
    apply organizeGo_frame
    intro j hj
    simp only [Nat.zero_add]
    have hmem : files.get ⟨j, hj⟩ ∈ files := List.get_mem _ _ _
    refine ⟨fun he => hqd (he ▸ hdirs _ hmem), fun he => ?_, ?_⟩
    · have h2 := congrArg (fun p : Path => strEndsWith p.name "_latest.csv") he
      simp only at h2
      rw [hqsuf, hdsuf _ hmem j hj] at h2
      exact Bool.noConfusion h2
    · rw [hlatest _ hmem]
      exact hqlp
  · -- conjunct 3: every timestamped copy keeps its staged bytes
    intro j hj
    rw [(organize_decomp noFailures ts fs files j hj).1]
    have hfr : fsLookup (organizeGo noFailures ts (j + 1)
        (organizeStateAt noFailures ts fs files (j + 1)) (files.drop (j + 1))).1
        (destPathOf files[j] (ts j))
        = fsLookup (organizeStateAt noFailures ts fs files (j + 1))
            (destPathOf files[j] (ts j)) := by
      apply organizeGo_frame
      intro k hk
      have hk2 : j + 1 + k < files.length := by
        rw [List.length_drop] at hk
        omega
      have hg : (files.drop (j + 1)).get ⟨k, hk⟩ = files[j + 1 + k] := by
        simp [List.getElem_drop]
      rw [hg]
      refine ⟨Ne.symm (staging_ne_dest (hdirs _ (List.getElem_mem hk2)) _ _),
        hdd j (j + 1 + k) hj hk2 (by omega), ?_⟩
      rw [hlatest _ (List.getElem_mem hk2)]
      exact hdne _ (List.getElem_mem hj) j hj
    rw [hfr]
    rw [organizeStateAt_succ noFailures ts fs files j hj, noFailures_eq]
    have hpres2 : (fsLookup (organizeStateAt noFailures ts fs files j)
        files[j].path).isSome = true := by
      rw [hstagefr j hj]
      exact hpres _ (List.getElem_mem hj)
    obtain ⟨d, hd⟩ := Option.isSome_iff_exists.mp hpres2
    have hchar := (processOne_noFail_eq (ts j)
      (organizeStateAt noFailures ts fs files j) files[j] d
      (by rw [(hall _ (List.getElem_mem hj)).1]; exact hsu)
      (by rw [(hall _ (List.getElem_mem hj)).1]; exact hs)
      hd
      (staging_ne_dest (hdirs _ (List.getElem_mem hj)) _ _)
      (staging_ne_latest (hdirs _ (List.getElem_mem hj)) _)
      (by rw [hlatest _ (List.getElem_mem hj)]; exact hdne _ (List.getElem_mem hj) _ hj)).1
      (destPathOf files[j] (ts j))
    rw [hchar]
    rw [if_neg (Ne.symm (staging_ne_dest (hdirs _ (List.getElem_mem hj)) _ _))]
    rw [if_neg (by rw [hlatest _ (List.getElem_mem hj)]; exact hdne _ (List.getElem_mem hj) _ hj)]
    rw [if_pos rfl]
    rw [← hstagefr _ hj, hd]

/-- Witness for C1 amended: two staged projections files organized with
distinct minute timestamps: the latest file holds the second file bytes
and the first file timestamped copy still holds the first file bytes. -/
theorem c1_latest_invariant_amended_witness :
    fsLookup (move_and_organize_files noFailures tsDistinct fsAB [stagedA, stagedB]).1
        ⟨Dir.category "projections", "projections" ++ "_latest.csv"⟩
      = fsLookup fsAB (([stagedA, stagedB].getLast (by decide)).path)
    ∧ fsLookup (move_and_organize_files noFailures tsDistinct fsAB [stagedA, stagedB]).1
        (destPathOf stagedA (tsDistinct 0))
      = fsLookup fsAB stagedA.path :=
  ⟨(c1_latest_invariant_amended tsDistinct fsAB [stagedA, stagedB]
      "projections" "projections" (by decide) (by decide) (by decide) (by decide)
      (by decide) (by decide)
      (by intro j k hj hk hjk
          have hc : (j = 0 ∧ k = 1) ∨ (j = 1 ∧ k = 0) := by
            simp only [List.length_cons, List.length_nil] at hj hk
            omega
          rcases hc with ⟨rfl, rfl⟩ | ⟨rfl, rfl⟩ <;> decide)).1 (by decide),
   (c1_latest_invariant_amended tsDistinct fsAB [stagedA, stagedB]
      "projections" "projections" (by decide) (by decide) (by decide) (by decide)
      (by decide) (by decide)
      (by intro j k hj hk hjk
          have hc : (j = 0 ∧ k = 1) ∨ (j = 1 ∧ k = 0) := by
            simp only [List.length_cons, List.length_nil] at hj hk
            omega
          rcases hc with ⟨rfl, rfl⟩ | ⟨rfl, rfl⟩ <;> decide)).2.2 0 (by decide)⟩

/-- C1 counterexample to the claim as stated: organizing two projections
files in sequence within the same minute (the timestamps of
move_and_organize_files have minute resolution) relocates both files
(conjunct 1), yet afterwards no file anywhere on disk holds the first
file bytes A (conjunct 2): the second file overwrote the shared
timestamped destination (conjunct 3) and the staged original was
deleted, so no timestamped copy of the first file exists on disk. -/
theorem c1_latest_claim_counterexample :
    (move_and_organize_files noFailures tsSame fsAB [stagedA, stagedB]).2.map
        MovedFile.original
      = [stagedA.path, stagedB.path]
    ∧ ((move_and_organize_files noFailures tsSame fsAB [stagedA, stagedB]).1.map
        (fun e => e.2.content)).contains "A" = false
    ∧ fsLookup (move_and_organize_files noFailures tsSame fsAB [stagedA, stagedB]).1
        (destPathOf stagedA (tsSame 0)) = some ⟨"B", 1⟩ := by
  refine ⟨?_, ?_, ?_⟩ <;> decide

/-! ## Claim C8: the manifest is rebuilt from the on-disk latest files -/

/-- Every manifest entry comes from a key whose latest file exists on
disk and carries its data. -/
theorem manifestFiles_entry (fs : FS) (keys : List String) (e : ManifestEntry)
    (he : e ∈ manifestFiles fs keys) :
    e.source ∈ keys ∧ e.path = manifestLatestPath e.source
    ∧ ∃ d, fsLookup fs (manifestLatestPath e.source) = some d
        ∧ e.size = d.content.length ∧ e.modified = d.mtime
        ∧ e.ready_for_upload = true := by
  obtain ⟨a, ha, hfa⟩ := List.mem_filterMap.mp he
  cases hlk : fsLookup fs (manifestLatestPath a) with
  | none =>
    rw [hlk] at hfa
    exact absurd hfa (by simp)
  | some d0 =>
    rw [hlk] at hfa
    injection hfa with hfa
    rw [← hfa]
    exact ⟨ha, rfl, d0, hlk, rfl, rfl, rfl⟩

/-- Entries of the manifest for keys not containing s never have
source s. -/
theorem manifestFiles_source_mem (fs : FS) :
    ∀ (keys : List String), ∀ e ∈ manifestFiles fs keys, e.source ∈ keys := by
  intro keys e he
  obtain ⟨a, ha, hfa⟩ := List.mem_filterMap.mp he
  cases hlk : fsLookup fs (manifestLatestPath a) with
  | none =>
    rw [hlk] at hfa
    exact absurd hfa (by simp)
  | some d0 =>
    rw [hlk] at hfa
    injection hfa with hfa
    rw [← hfa]
    exact ha

/-- Keys without s contribute no entry with source s. -/
theorem manifestFiles_filter_nil (fs : FS) (keys : List String) (s : String)
    (hs : s ∉ keys) :
    (manifestFiles fs keys).filter (fun e => e.source == s) = [] := by
  rw [List.filter_eq_nil_iff]
  intro e he
  have := manifestFiles_source_mem fs keys e he
  simp only [beq_iff_eq]
  intro hes
  exact hs (hes ▸ this)

/-- For nodup keys containing s whose latest file exists, the manifest
holds exactly one entry with source s, carrying the on-disk data. -/
theorem manifestFiles_filter_eq (fs : FS) :
    ∀ (keys : List String), keys.Nodup → ∀ s ∈ keys, ∀ d,
    fsLookup fs (manifestLatestPath s) = some d →
    (manifestFiles fs keys).filter (fun e => e.source == s)
      = [{ source := s, path := manifestLatestPath s, size := d.content.length,
           modified := d.mtime, ready_for_upload := true }] := by
  intro keys
  induction keys with
  | nil =>
    intro _ s hs
    exact absurd hs (List.not_mem_nil s)
  | cons a rest ih =>
    intro hnd s hs d hd
    obtain ⟨hna, hndr⟩ := List.nodup_cons.mp hnd
    rcases List.mem_cons.mp hs with rfl | hmem
    · unfold manifestFiles
      simp only [List.filterMap_cons, hd]
      rw [List.filter_cons_of_pos (by simp)]
      have hrest : (manifestFiles fs rest).filter (fun e => e.source == s) = [] :=
        manifestFiles_filter_nil fs rest s hna
      unfold manifestFiles at hrest
      rw [hrest]
    · have has : a ≠ s := fun he => hna (he ▸ hmem)
      unfold manifestFiles
      simp only [List.filterMap_cons]
      have htail := ih hndr s hmem d hd
      unfold manifestFiles at htail
      cases hlk : fsLookup fs (manifestLatestPath a) with
      | none => exact htail
      | some d0 =>
        rw [List.filter_cons_of_neg (by simp [has])]
        exact htail

/-- C8: create_upload_manifest rebuilds the files list entirely from the
on-disk latest files, ignoring its moved-files argument: two calls with
different arguments over the same filesystem produce the same files list
(conjunct 1); every entry belongs to a source key whose latest file
exists on disk and carries its path, size, modification time and a true
ready flag (conjunct 2); a source key whose latest file exists
contributes exactly one entry (conjunct 3); and a source whose latest
file is absent contributes none (conjunct 4). -/
theorem c8_manifest_rebuilt_from_disk (now1 now2 : String)
    (m1 m2 : List MovedFile) (fs : FS) :
    (create_upload_manifest now1 m1 fs).files = (create_upload_manifest now2 m2 fs).files
    ∧ (∀ e ∈ (create_upload_manifest now1 m1 fs).files,
        e.source ∈ sourceKeys
        ∧ e.path = manifestLatestPath e.source
        ∧ ∃ d, fsLookup fs (manifestLatestPath e.source) = some d
            ∧ e.size = d.content.length ∧ e.modified = d.mtime
            ∧ e.ready_for_upload = true)
    ∧ (∀ s ∈ sourceKeys, ∀ d, fsLookup fs (manifestLatestPath s) = some d →
        (create_upload_manifest now1 m1 fs).files.filter (fun e => e.source == s)
          = [{ source := s, path := manifestLatestPath s, size := d.content.length,
               modified := d.mtime, ready_for_upload := true }])
    ∧ (∀ s, fsLookup fs (manifestLatestPath s) = none →
        ∀ e ∈ (create_upload_manifest now1 m1 fs).files, e.source ≠ s) := by
  refine ⟨rfl, ?_, ?_, ?_⟩
  · intro e he
    exact manifestFiles_entry fs sourceKeys e he
  · intro s hs d hd
    exact manifestFiles_filter_eq fs sourceKeys (by decide) s hs d hd
  · intro s hnone e he hes
    obtain ⟨-, -, d, hd, -⟩ := manifestFiles_entry fs sourceKeys e he
    rw [hes] at hd
    rw [hd] at hnone
    exact absurd hnone (by simp)

/-- Witness for C8: over a state holding only the bare sos latest file,
two calls with different timestamps and moved lists agree, and the sos
key contributes exactly one entry with the on-disk data. -/
theorem c8_manifest_rebuilt_from_disk_witness :
    (create_upload_manifest "t1" [] fsSosLatest).files
      = (create_upload_manifest "t2"
          [{ source := "projections", original := stagedA.path,
             destination := ⟨Dir.category "projections", "x.csv"⟩,
             latest := ⟨Dir.category "projections", "y.csv"⟩, size := 3 }]
          fsSosLatest).files
    ∧ (create_upload_manifest "t1" [] fsSosLatest).files.filter
        (fun e => e.source == "sos")
      = [{ source := "sos", path := manifestLatestPath "sos", size := 1,
           modified := 9, ready_for_upload := true }] :=
  ⟨(c8_manifest_rebuilt_from_disk "t1" "t2" []
      [{ source := "projections", original := stagedA.path,
         destination := ⟨Dir.category "projections", "x.csv"⟩,
         latest := ⟨Dir.category "projections", "y.csv"⟩, size := 3 }]
      fsSosLatest).1,
   (c8_manifest_rebuilt_from_disk "t1" "t2" []
      [{ source := "projections", original := stagedA.path,
         destination := ⟨Dir.category "projections", "x.csv"⟩,
         latest := ⟨Dir.category "projections", "y.csv"⟩, size := 3 }]
      fsSosLatest).2.2.1 "sos" (by decide) ⟨"X", 9⟩ (by decide)⟩

/-! ## Claim C10: position-scoped sos latest files never reach the
manifest -/

/-- The recognized positions are exactly QB, RB, WR, TE, DST. -/
theorem extract_sos_position_mem (name pos : String)
    (h : extract_sos_position name = some pos) :
    pos = "QB" ∨ pos = "RB" ∨ pos = "WR" ∨ pos = "TE" ∨ pos = "DST" := by
  simp only [extract_sos_position] at h
  split_ifs at h <;> (injection h with h; simp [h.symm])

/-- C10: a strength-of-schedule file with a recognized position in its
filename gets its latest pointer at sos-<position>_latest.csv (and a
successful step writes the staged bytes there), but
create_upload_manifest only ever inspects the bare per-key latest names
(sos_latest.csv for the sos key), so no manifest entry ever carries a
position-scoped sos latest path, over any filesystem and any
arguments. -/
theorem c10_sos_position_latest_unreachable :
    (∀ (fi : FileInfo) (t : String) (fs : FS) (pos : String) (d : FileData),
        fi.source = "sos" → extract_sos_position fi.name = some pos →
        fi.path.dir = Dir.sysDownloads → fsLookup fs fi.path = some d →
        t ≠ "latest" →
        latestPathOf fi
            = ⟨Dir.category "sos", "sos-" ++ strLower pos ++ "_latest.csv"⟩
          ∧ fsLookup (processOne noFail t fs fi).1
              ⟨Dir.category "sos", "sos-" ++ strLower pos ++ "_latest.csv"⟩ = some d)
    ∧ (∀ (now : String) (mvs : List MovedFile) (fs : FS) (e : ManifestEntry)
          (name pos : String),
        e ∈ (create_upload_manifest now mvs fs).files →
        extract_sos_position name = some pos →
        e.path ≠ ⟨Dir.category "sos", "sos-" ++ strLower pos ++ "_latest.csv"⟩) := by
  constructor
  · intro fi t fs pos d hsos hpos hdir hstag ht
    have hbase : baseNameFor fi = "sos-" ++ strLower pos := by
      unfold baseNameFor
      rw [if_pos hsos, hpos]
    have hlat : latestPathOf fi
        = (⟨Dir.category "sos", "sos-" ++ strLower pos ++ "_latest.csv"⟩ : Path) := by
      unfold latestPathOf
      rw [hsos, hbase]
    refine ⟨hlat, ?_⟩
    rw [← hlat]
    have hchar := (processOne_noFail_eq t fs fi d
      (by rw [hsos]; exact (by decide))
      (by rw [hsos]; exact (by decide))
      hstag
      (staging_ne_dest hdir _ _)
      (staging_ne_latest hdir _)
      (dest_ne_latest_of_t ht)).1 (latestPathOf fi)
    rw [hchar]
    rw [if_neg (fun he => (staging_ne_latest hdir fi) he.symm), if_pos rfl]
  · intro now mvs fs e name pos he hpos
    obtain ⟨ha, hpath, -⟩ := manifestFiles_entry fs sourceKeys e he
    rw [hpath]
    have hposes := extract_sos_position_mem name pos hpos
    have ha2 : e.source = "projections" ∨ e.source = "draftkings"
        ∨ e.source = "nfl_odds" ∨ e.source = "sos" := by
      simpa [sourceKeys] using ha
    rcases ha2 with hsrc | hsrc | hsrc | hsrc <;> rw [hsrc] <;>
      rcases hposes with rfl | rfl | rfl | rfl | rfl <;> decide

/-- Witness for C10: the staged file SOS_QB_Rankings.csv is organized
with its latest pointer at sos-qb_latest.csv, holding its bytes. -/
theorem c10_sos_position_latest_unreachable_witness :
    latestPathOf stagedS
      = ⟨Dir.category "sos", "sos-" ++ strLower "QB" ++ "_latest.csv"⟩
    ∧ fsLookup (processOne noFail "20250901_1200" fsS stagedS).1
        ⟨Dir.category "sos", "sos-" ++ strLower "QB" ++ "_latest.csv"⟩
      = some ⟨"S", 3⟩ :=
  c10_sos_position_latest_unreachable.1 stagedS "20250901_1200" fsS "QB" ⟨"S", 3⟩
    (by decide) (by decide) (by decide) (by decide) (by decide)

end DFS
